import Mathlib

/-!
Shallow embedding of the Go Error Collapse block scanner
(`src/detector.ts`: `ErrorBlockDetector` together with
`ConfigManager.getErrorVariablePattern` from `src/config.ts` and the data
model of `src/types.ts`).

Strings are modelled as Lean `String`s (sequences of Unicode scalars);
JavaScript string indices/lengths are UTF-16 code units, which agree with
scalar counts on all inputs considered here.  The JavaScript regexes of the
source are translated into explicit character-level parsers whose semantics
coincide with the regex engine's backtracking semantics on the patterns in
question; each translation is documented at its definition.
-/

namespace GoErrorCollapse

/-- The character class of the JavaScript regex `\s` (whitespace), written
out literally: tab, line feed, vertical tab, form feed, carriage return,
space, NBSP, Ogham space mark, the U+2000–U+200A spaces, line/paragraph
separator, narrow NBSP, medium mathematical space, ideographic space, BOM. -/
def isJsWs (c : Char) : Bool :=
  c = ' ' || c = '\t' || c = '\n' || c.val = 11 || c.val = 12 || c = '\r' ||
  c.val = 0xa0 || c.val = 0x1680 || (0x2000 ≤ c.val && c.val ≤ 0x200a) ||
  c.val = 0x2028 || c.val = 0x2029 || c.val = 0x202f || c.val = 0x205f ||
  c.val = 0x3000 || c.val = 0xfeff

/-- The character class of the JavaScript regex `\w`: ASCII letters, digits
and underscore. -/
def isWordChar (c : Char) : Bool :=
  c.isAlphanum || c = '_'

/-- Remove trailing whitespace: a character is dropped iff it is
whitespace and everything after it was dropped. -/
def trimEnd : List Char → List Char
  | [] => []
  | c :: cs =>
    match trimEnd cs with
    | [] => if isJsWs c then [] else [c]
    | r => c :: r

/-- `String.prototype.trim()`: strip leading and trailing `\s` characters. -/
def trimChars (cs : List Char) : List Char :=
  trimEnd (cs.dropWhile isJsWs)

/-- ASCII-only lowercasing, as used by case-insensitive (`/i`) matching of
the ASCII-letter patterns appearing in the source. -/
def lowerAscii (cs : List Char) : List Char :=
  cs.map Char.toLower

/-- Case-insensitive prefix test: does `cs` start with the pattern `p`
(ASCII case folding, matching a `/i` regex literal prefix)? -/
def startsWithCI (p : String) (cs : List Char) : Bool :=
  (lowerAscii p.data).isPrefixOf (lowerAscii cs)

end GoErrorCollapse

namespace GoErrorCollapse

/-- Anchored parse of the guard-header shape underlying the regex
`^(\s*)if\s+<group>\s*!=\s*nil\s*\{\s*$` of `performDetection`
(detector.ts line 94), with the error-variable group abstracted out.
Because `\w` matches no whitespace and none of `!`, `=`, `{`, the regex can
only succeed by taking the maximal runs shown here, so the backtracking
search reduces to this deterministic decomposition: maximal leading
whitespace (the captured indentation), literal `if`, at least one
whitespace, a maximal (possibly empty) word-character run `w` (the text the
error-variable group must match), optional whitespace, `!=`, optional
whitespace, `nil`, optional whitespace, `{`, optional trailing whitespace,
end of line.  Returns `(indentation, w)` on success. -/
def parseGuardShape (line : String) : Option (String × List Char) :=
  let cs := line.data
  let ind := cs.takeWhile isJsWs
  match cs.dropWhile isJsWs with
  | 'i' :: 'f' :: r2 =>
    if (r2.takeWhile isJsWs).isEmpty then none
    else
      let r3 := r2.dropWhile isJsWs
      let w := r3.takeWhile isWordChar
      match (r3.dropWhile isWordChar).dropWhile isJsWs with
      | '!' :: '=' :: r6 =>
        match r6.dropWhile isJsWs with
        | 'n' :: 'i' :: 'l' :: r8 =>
          match r8.dropWhile isJsWs with
          | '{' :: r10 =>
            if (r10.dropWhile isJsWs).isEmpty then some (String.mk ind, w)
            else none
          | _ => none
        | _ => none
      | _ => none
  | _ => none

/-- Substring test: does `needle` occur contiguously inside `hay`? -/
def infixOfChars (needle : List Char) : List Char → Bool
  | [] => needle.isEmpty
  | c :: rest => needle.isPrefixOf (c :: rest) || infixOfChars needle rest

/-- The error-variable group of `ConfigManager.getErrorVariablePattern`
(config.ts lines 453–458): `(\w*f1\w* | ... | \w*fn\w*)` built from the
configured fragments.  Restricted to fragments made of word characters
(the realistic domain; the defaults are `"err"`/`"error"`), the group
matches a word-character run `w` iff some fragment occurs in `w` as a
substring.  For an empty fragment list the source produces `()` — the empty
alternation `patternParts.join('|') = ""` — which matches exactly the empty
string, hence the `w.isEmpty` case. -/
def groupAccepts (frags : List String) (w : List Char) : Bool :=
  match frags with
  | [] => w.isEmpty
  | _ :: _ => frags.any (fun f => infixOfChars f.data w)

/-- The guard-header predicate: the regex match of `performDetection`
(detector.ts lines 94–105).  Returns the captured indentation (`match[1]`)
on success. -/
def guardHeader (frags : List String) (line : String) : Option String :=
  match parseGuardShape line with
  | some (ind, w) => if groupAccepts frags w then some ind else none
  | none => none

/-- The default configured fragments (`errorPatterns` default, config.ts
line 411). -/
def defaultFrags : List String := ["err", "error"]

/-- Word-boundary test of `\b` placed after a word: the next character is
not a word character (or the string ends). -/
def boundaryAfter : List Char → Bool
  | [] => true
  | c :: _ => !isWordChar c

/-- Regex `^return\b` with `/i` (detector.ts line 211), applied to a
trimmed line. -/
def patReturn (t : List Char) : Bool :=
  startsWithCI "return" t && boundaryAfter (t.drop 6)

/-- Case-insensitive alternation prefix: does `cs` start with one of the
literals `alts`? -/
def anyAltCI (alts : List String) (cs : List Char) : Bool :=
  alts.any (fun a => startsWithCI a cs)

/-- Regex `^log\.(Fatal|Panic|Error|Warn|Info|Print)/i` (line 212). -/
def patLog (t : List Char) : Bool :=
  startsWithCI "log." t &&
    anyAltCI ["Fatal", "Panic", "Error", "Warn", "Info", "Print"] (t.drop 4)

/-- Regex `^fmt\.(Print|Errorf|Fprint|Sprint)/i` (line 213). -/
def patFmt (t : List Char) : Bool :=
  startsWithCI "fmt." t &&
    anyAltCI ["Print", "Errorf", "Fprint", "Sprint"] (t.drop 4)

/-- Regex `^panic\s*\(/i` (line 214). -/
def patPanic (t : List Char) : Bool :=
  startsWithCI "panic" t &&
    (match (t.drop 5).dropWhile isJsWs with
     | '(' :: _ => true
     | _ => false)

/-- Regex `^\w+\.(Fatal|Error|Warn|Info|Debug|Print)/i` (line 215): at
least one word character, a dot, then one of the method names.  Since `\w`
never matches `.`, the `\w+` run is forced to be the maximal word run
before the first dot. -/
def patCustom (t : List Char) : Bool :=
  let w := t.takeWhile isWordChar
  !w.isEmpty &&
    (match t.drop w.length with
     | '.' :: rest => anyAltCI ["Fatal", "Error", "Warn", "Info", "Debug", "Print"] rest
     | _ => false)

/-- Regex `^(os\.Exit|syscall\.Exit)/i` (line 216). -/
def patExit (t : List Char) : Bool :=
  startsWithCI "os.Exit" t || startsWithCI "syscall.Exit" t

/-- The disjunction of the `validLinePatterns` of `isSimpleErrorReturn`
(detector.ts lines 210–217), applied to a trimmed line. -/
def matchesValidPattern (t : List Char) : Bool :=
  patReturn t || patLog t || patFmt t || patPanic t || patCustom t || patExit t

/-- The body-line filter of `isSimpleErrorReturn` and
`extractBodyStatement` (lines 191–194 and 249–252): keep a line iff its
trimmed form is non-empty and does not start with `//`. -/
def qualifies (line : String) : Bool :=
  let t := trimChars line.data
  !t.isEmpty && !(['/', '/'].isPrefixOf t)

/-- The `nonEmpty` list of `isSimpleErrorReturn`/`extractBodyStatement`. -/
def qualifyingLines (bodyLines : List String) : List String :=
  bodyLines.filter qualifies

/-- Regex `^\s*return\b` with no `/i` flag (detector.ts line 237): the
case-SENSITIVE return-statement counter, applied to the unfiltered line. -/
def startsReturnCS (cs : List Char) : Bool :=
  let t := cs.dropWhile isJsWs
  "return".data.isPrefixOf t && boundaryAfter (t.drop 6)

/-- `ErrorBlockDetector.isSimpleErrorReturn` (detector.ts lines 189–243).
The unused local `fullBody` (line 207) is dead code and omitted.  The
source's per-line loop with early `return false` is rendered as `List.all`;
the final check counts case-sensitive `return` lines. -/
def isSimpleErrorReturn (bodyLines : List String) : Bool :=
  let nonEmpty := qualifyingLines bodyLines
  if nonEmpty.length = 0 then false
  else if 3 < nonEmpty.length then false
  else if nonEmpty.all (fun l => matchesValidPattern (trimChars l.data)) then
    nonEmpty.countP (fun l => startsReturnCS l.data) ≤ 1
  else false

/-- Helper for `collapseWsChars`: `prevWs` records whether the previous
character belonged to a whitespace run whose single `' '` has already been
emitted. -/
def collapseWsAux (prevWs : Bool) : List Char → List Char
  | [] => []
  | c :: cs =>
    if isJsWs c then
      if prevWs then collapseWsAux true cs
      else ' ' :: collapseWsAux true cs
    else c :: collapseWsAux false cs

/-- `String.prototype.replace(/\s+/g, ' ')`: every maximal run of
whitespace characters becomes a single space. -/
def collapseWsChars (cs : List Char) : List Char :=
  collapseWsAux false cs

/-- `ErrorBlockDetector.extractBodyStatement` (detector.ts lines 248–269):
empty bodies default to `"return err"`, a single qualifying line is merely
trimmed, several qualifying lines are trimmed, joined with spaces,
whitespace-collapsed and trimmed. -/
def extractBodyStatement (bodyLines : List String) : String :=
  match qualifyingLines bodyLines with
  | [] => "return err"
  | [l] => String.mk (trimChars l.data)
  | ls =>
    String.mk (trimChars (collapseWsChars
      (String.intercalate " " (ls.map (fun l => String.mk (trimChars l.data)))).data))

/-- Number of occurrences of `c` in `s`, as in
`(line.match(/\{/g) || []).length`. -/
def countChar (c : Char) (s : String) : Nat :=
  s.data.countP (· = c)

/-- Regex `^(\s*)\}` (detector.ts line 168): the line must begin with
whitespace followed by `}`; returns the captured whitespace.  The greedy
`\s*` backtracks only onto whitespace characters, which can never equal
`}`, so the capture is forced to the maximal whitespace prefix. -/
def closingIndent (line : String) : Option (List Char) :=
  match line.data.dropWhile isJsWs with
  | '}' :: _ => some (line.data.takeWhile isJsWs)
  | _ => none

/-- Does `cs` match `\}\s*else\s*\{` starting at its first character? -/
def braceElseFrom : List Char → Bool
  | '}' :: cs =>
    let r := cs.dropWhile isJsWs
    if "else".data.isPrefixOf r then
      match (r.drop 4).dropWhile isJsWs with
      | '{' :: _ => true
      | _ => false
    else false
  | _ => false

/-- Unanchored regex `/\}\s*else\s*\{/` (detector.ts line 171): some
suffix of the line matches the pattern at its start. -/
def containsBraceElse : List Char → Bool
  | [] => false
  | c :: rest => braceElseFrom (c :: rest) || containsBraceElse rest

/-- Anchored regex `/^\s*else\s*\{/` (detector.ts line 172) applied to the
line after the closing brace. -/
def elseNextLine (line : String) : Bool :=
  let r := line.data.dropWhile isJsWs
  if "else".data.isPrefixOf r then
    match (r.drop 4).dropWhile isJsWs with
    | '{' :: _ => true
    | _ => false
  else false

/-- The guarded lookahead `j + 1 < lines.length &&
/^\s*else\s*\{/.test(lines[j + 1])` (detector.ts line 172), phrased on the
list of lines after the closing line: the next line exists and opens an
`else` block. -/
def elseOnNext : List String → Bool
  | next :: _ => elseNextLine next
  | [] => false

/-- Result record of `findBlockEnd` (detector.ts line 150). -/
structure BlockEnd where
  endLine : Nat
  bodyLines : List String
  bodyStartLine : Nat
deriving DecidableEq, Repr

/-- The loop of `findBlockEnd` (detector.ts lines 156–180), processed
structurally over the remaining lines `rem = lines.drop j`.  `j` is the
absolute index of the first line of `rem`; `braceCount` starts at 1 for
the header's opening brace; lines consumed while the count stays positive
are accumulated as the body.  When the count first drops to `≤ 0`, the
line must start with `}` at exactly the expected indentation and must not
be followed by an `else` clause (`} else {` somewhere on the closing line,
or `else {` opening the next line); any failure yields `none`, as does end
of input. -/
def findBlockEndAux (expectedIndentation : String) :
    Nat → Int → List String → List String → Option (Nat × List String)
  | _, _, _, [] => none
  | j, braceCount, bodyAcc, currentLine :: rest =>
    let bc := braceCount + (countChar '{' currentLine : Int)
      - (countChar '}' currentLine : Int)
    if 0 < bc then
      findBlockEndAux expectedIndentation (j + 1) bc (bodyAcc ++ [currentLine]) rest
    else
      match closingIndent currentLine with
      | some w =>
        if w = expectedIndentation.data then
          if containsBraceElse currentLine.data || elseOnNext rest then
            none
          else
            some (j, bodyAcc)
        else none
      | none => none

/-- `ErrorBlockDetector.findBlockEnd` (detector.ts lines 146–183):
`bodyStartLine` is fixed at `startIndex + 1` (the initial `j`). -/
def findBlockEnd (lines : List String) (startIndex : Nat)
    (expectedIndentation : String) : Option BlockEnd :=
  match findBlockEndAux expectedIndentation (startIndex + 1) 1 []
      (lines.drop (startIndex + 1)) with
  | some (endLine, bodyLines) => some ⟨endLine, bodyLines, startIndex + 1⟩
  | none => none

/-- `.` of a JavaScript regex without the `s` flag: any character except
line terminators. -/
def dotMatches (c : Char) : Bool :=
  !(c = '\n' || c = '\r' || c.val = 0x2028 || c.val = 0x2029)

/-- Does `cs` match `\s*\{` at its start?  Deterministic: the greedy `\s*`
backtracks only onto whitespace, never `{`. -/
def wsThenOpen : List Char → Bool
  | [] => false
  | c :: cs => if c = '{' then true else if isJsWs c then wsThenOpen cs else false

/-- The lazy group of `(.+?)\s*\{`: the shortest non-empty run of
`.`-matchable characters after which `\s*\{` matches. -/
def lazyCondGroup : List Char → Option (List Char)
  | [] => none
  | c :: cs =>
    if !dotMatches c then none
    else if wsThenOpen cs then some [c]
    else
      match lazyCondGroup cs with
      | some g => some (c :: g)
      | none => none

/-- Backtracking of the greedy `\s+` of `if\s+(.+?)\s*\{`: try consuming
`j, j-1, …, 1` whitespace characters of `cs` (longest first, as the engine
does) and hand the rest to the lazy group. -/
def tryWsPrefix (cs : List Char) : Nat → Option (List Char)
  | 0 => none
  | j + 1 =>
    match lazyCondGroup (cs.drop (j + 1)) with
    | some g => some g
    | none => tryWsPrefix cs j

/-- Leftmost unanchored search for `if\s+(.+?)\s*\{` (detector.ts line
276): at each position, literal `if` followed by at least one whitespace
character, then the lazy condition group; returns the group's capture. -/
def condSearch : List Char → Option (List Char)
  | [] => none
  | c :: cs =>
    (if c = 'i' then
      match cs with
      | 'f' :: rest =>
        match tryWsPrefix rest (rest.takeWhile isJsWs).length with
        | some g => some g
        | none => condSearch cs
      | _ => condSearch cs
    else condSearch cs)

/-- The `condMatch` of `generateCollapsedText`: capture group 1 of
`ifLine.match(/if\s+(.+?)\s*\{/)`. -/
def extractCondition (ifLine : String) : Option String :=
  (condSearch ifLine.data).map String.mk

/-- `ErrorBlockDetector.generateCollapsedText` (detector.ts lines
274–287): condition extracted from the header line (defaulting to
`err != nil`), body truncated to its first 50 characters plus `...` when
longer than 50. -/
def generateCollapsedText (ifLine : String) (bodyStatement : String) : String :=
  let condition := (extractCondition ifLine).getD "err != nil"
  let displayBody :=
    if 50 < bodyStatement.length then String.mk (bodyStatement.data.take 50) ++ "..."
    else bodyStatement
  "if " ++ condition ++ " \x7b " ++ displayBody ++ " \x7d"

/-- The `ErrorBlock` descriptor (types.ts lines 324–345).  `fullRange`
models the `vscode.Range` `(startLine, 0, endLine, lines[endLine].length)`
as a pair of line/character positions. -/
structure ErrorBlock where
  startLine : Nat
  endLine : Nat
  bodyStartLine : Nat
  indentation : String
  collapsedText : String
  bodyStatement : String
  fullRange : (Nat × Nat) × (Nat × Nat)
deriving DecidableEq, Repr

/-- The scanning loop of `performDetection` (detector.ts lines 98–138),
written with an explicit fuel argument: the source's `while (i <
lines.length)` loop advances `i` by at least one per iteration (to
`endLine + 1 ≥ i + 2` after a found block end, else to `i + 1`), so
`lines.length` iterations always suffice and
`scanFromAux lines frags lines.length 0` computes exactly the loop's
result.  A block descriptor is pushed only when the body classifies as a
simple error return; the cursor moves past the closing line whenever a
block end was found, whether or not the body qualified. -/
def scanFromAux (lines frags : List String) : Nat → Nat → List ErrorBlock
  | 0, _ => []
  | fuel + 1, i =>
    if i < lines.length then
      match guardHeader frags (lines.getD i "") with
      | some indentation =>
        match findBlockEnd lines i indentation with
        | some r =>
          if isSimpleErrorReturn r.bodyLines then
            { startLine := i, endLine := r.endLine,
              bodyStartLine := r.bodyStartLine, indentation := indentation,
              collapsedText := generateCollapsedText (lines.getD i "")
                (extractBodyStatement r.bodyLines),
              bodyStatement := extractBodyStatement r.bodyLines,
              fullRange := ((i, 0), (r.endLine, (lines.getD r.endLine "").length)) }
              :: scanFromAux lines frags fuel (r.endLine + 1)
          else scanFromAux lines frags fuel (r.endLine + 1)
        | none => scanFromAux lines frags fuel (i + 1)
      | none => scanFromAux lines frags fuel (i + 1)
    else []

/-- `ErrorBlockDetector.performDetection` (detector.ts lines 87–141) on an
already-split list of lines. -/
def performDetection (lines frags : List String) : List ErrorBlock :=
  scanFromAux lines frags lines.length 0

/-- `DocumentCache` (types.ts lines 370–379). -/
structure DocumentCache where
  version : Nat
  blocks : List ErrorBlock
  timestamp : Nat
deriving DecidableEq, Repr

/-- `ErrorBlockDetector.CACHE_TTL` (detector.ts line 13). -/
def CACHE_TTL : Nat := 5000

/-- The detector's `cache : Map<string, DocumentCache>`, modelled as an
association list; `cacheGet` is `Map.get`. -/
def cacheGet (m : List (String × DocumentCache)) (uri : String) :
    Option DocumentCache :=
  match m with
  | [] => none
  | (k, v) :: rest => if k = uri then some v else cacheGet rest uri

/-- `Map.set`: overwrite the entry for `uri` (or append a new one). -/
def cacheSet (m : List (String × DocumentCache)) (uri : String)
    (e : DocumentCache) : List (String × DocumentCache) :=
  match m with
  | [] => [(uri, e)]
  | (k, v) :: rest =>
    if k = uri then (uri, e) :: rest else (k, v) :: cacheSet rest uri e

/-- `ErrorBlockDetector.detectErrorBlocks` (detector.ts lines 19–41) with
the ambient state made explicit: the cache map is threaded through, the
document supplies `uri`, `version` and its text `lines`, the configuration
supplies `frags`, and `Date.now()` is the explicit parameter `now`.  The
returned `Bool` is instrumentation recording whether the Scanner
(`performDetection`) was invoked — the call counter the specification's
cache-correctness property asks to observe.  The JS age test
`Date.now() - cached.timestamp < CACHE_TTL` is `now - c.timestamp <
CACHE_TTL` (for `now < c.timestamp` JS computes a negative difference and
the test holds; truncated `Nat` subtraction gives `0` and the test holds
as well, so the two agree on all inputs). -/
def detectErrorBlocks (cache : List (String × DocumentCache)) (uri : String)
    (version : Nat) (lines frags : List String) (now : Nat) :
    List ErrorBlock × List (String × DocumentCache) × Bool :=
  match cacheGet cache uri with
  | some c =>
    if c.version = version ∧ now - c.timestamp < CACHE_TTL then
      (c.blocks, cache, false)
    else
      let blocks := performDetection lines frags
      (blocks, cacheSet cache uri ⟨version, blocks, now⟩, true)
  | none =>
    let blocks := performDetection lines frags
    (blocks, cacheSet cache uri ⟨version, blocks, now⟩, true)

/-- The blocks of a scan form a chain: each starts no earlier than `lo`,
opens strictly before its body, closes no earlier than its body starts,
and the next block begins strictly after the closing line. -/
def ChainedFrom (lo : Nat) : List ErrorBlock → Prop
  | [] => True
  | d :: ds =>
    lo ≤ d.startLine ∧ d.startLine < d.bodyStartLine ∧
    d.bodyStartLine ≤ d.endLine ∧ ChainedFrom (d.endLine + 1) ds

/-- Declarative reading of the body classifier, following the
specification's wording: between 1 and 3 qualifying (non-empty,
non-`//`-comment) lines, every qualifying line independently matches one
of the allowed shapes, and at most one qualifying line is a `return`
statement.  "Is a `return` statement" is the source's case-sensitive
`^\s*return\b` test; the shape check is the source's case-insensitive
pattern list. -/
def SimpleBodySpec (bodyLines : List String) : Prop :=
  1 ≤ (qualifyingLines bodyLines).length ∧
  (qualifyingLines bodyLines).length ≤ 3 ∧
  (∀ l ∈ qualifyingLines bodyLines, matchesValidPattern (trimChars l.data) = true) ∧
  (qualifyingLines bodyLines).countP (fun l => startsReturnCS l.data) ≤ 1

/-- No two adjacent characters are both whitespace. -/
def NoTwoWs (cs : List Char) : Prop :=
  List.Chain' (fun a b => ¬(isJsWs a = true ∧ isJsWs b = true)) cs

/-- The first character, if any, is not whitespace. -/
def headNotWs : List Char → Bool
  | [] => true
  | c :: _ => !isJsWs c

/-- The last character, if any, is not whitespace. -/
def lastNotWs : List Char → Bool
  | [] => true
  | [c] => !isJsWs c
  | _ :: c :: rest => lastNotWs (c :: rest)

/-- Sample input: the specification's first acceptance example. -/
def exLines1 : List String := ["if err != nil \x7b", "    return err", "\x7d"]

/-- The descriptor the scanner emits for `exLines1`. -/
def exBlock1 : ErrorBlock :=
  { startLine := 0, endLine := 2, bodyStartLine := 1, indentation := "",
    collapsedText := "if err != nil \x7b return err \x7d", bodyStatement := "return err",
    fullRange := ((0, 0), (2, 1)) }

/-- Sample input: a rejected guard (unclassifiable body) followed by an
accepted one. -/
def exLines3 : List String :=
  ["if err != nil \x7b", "    cleanup()", "    return err", "\x7d",
   "if err != nil \x7b", "    return err", "\x7d"]

/-- The single descriptor the scanner emits for `exLines3`. -/
def exBlock3 : ErrorBlock :=
  { startLine := 4, endLine := 6, bodyStartLine := 5, indentation := "",
    collapsedText := "if err != nil \x7b return err \x7d", bodyStatement := "return err",
    fullRange := ((4, 0), (6, 1)) }

/-- Sample input: an accepted guard followed by a guard with no closing
line before end of input. -/
def exLines4 : List String :=
  ["if err != nil \x7b", "    return err", "\x7d", "if err != nil \x7b", "    return err"]

/-- The single descriptor the scanner emits for `exLines4`. -/
def exBlock4 : ErrorBlock :=
  { startLine := 0, endLine := 2, bodyStartLine := 1, indentation := "",
    collapsedText := "if err != nil \x7b return err \x7d", bodyStatement := "return err",
    fullRange := ((0, 0), (2, 1)) }

/-- Sample input: a guard whose body statement is 66 characters long. -/
def exLines7 : List String :=
  ["if err != nil \x7b",
   "    return errors.New(veryLongDescriptiveErrorVariableNameNumber12345)",
   "\x7d"]

/-- The descriptor the scanner emits for `exLines7`: `collapsedText` holds
the first 50 characters of the body statement plus an ellipsis, while
`bodyStatement` is the full 66-character statement. -/
def exBlock7 : ErrorBlock :=
  { startLine := 0, endLine := 2, bodyStartLine := 1, indentation := "",
    collapsedText :=
      "if err != nil \x7b return errors.New(veryLongDescriptiveErrorVariable... \x7d",
    bodyStatement :=
      "return errors.New(veryLongDescriptiveErrorVariableNameNumber12345)",
    fullRange := ((0, 0), (2, 1)) }

/-- Sample cache holding one entry for one document. -/
def exCache : List (String × DocumentCache) :=
  [("file:///a.go", { version := 1, blocks := [], timestamp := 100 })]

/-- If `l.drop j` is `c :: rest` then position `j` holds `c` and dropping
one more line yields `rest`. -/
theorem drop_cons_getD {α : Type} {l : List α} {j : Nat} {c : α} {rest : List α}
    (d : α) (h : l.drop j = c :: rest) :
    l.getD j d = c ∧ l.drop (j + 1) = rest := by
  induction j generalizing l with
  | zero =>
    simp only [List.drop_zero] at h
    subst h
    simp
  | succ j ih =>
    cases l with
    | nil => simp at h
    | cons x xs =>
      simp only [List.drop_succ_cons] at h
      have := ih (l := xs) h
      simpa using this

/-- Specification of the `findBlockEnd` loop: a successful result names a
line between `j` and the end of input that starts with `}` at exactly the
expected indentation and is not followed by an `else` clause. -/
theorem findBlockEndAux_spec {lines : List String} {ind : String} :
    ∀ (rem : List String) (j : Nat) (bc : Int) (acc : List String)
      (e : Nat) (b : List String),
      rem = lines.drop j →
      findBlockEndAux ind j bc acc rem = some (e, b) →
      j ≤ e ∧ e < lines.length ∧
      closingIndent (lines.getD e "") = some ind.data ∧
      containsBraceElse (lines.getD e "").data = false ∧
      (e + 1 < lines.length → elseNextLine (lines.getD (e + 1) "") = false) := by
  intro rem
  induction rem with
  | nil =>
    intro j bc acc e b _ h
    simp [findBlockEndAux] at h
  | cons cur rest ih =>
    intro j bc acc e b hdrop h
    have hcur : lines.getD j "" = cur ∧ lines.drop (j + 1) = rest :=
      drop_cons_getD "" hdrop.symm
    have hj : j < lines.length := by
      by_contra hge
      have : lines.drop j = [] := List.drop_eq_nil_of_le (by omega)
      rw [this] at hdrop
      exact absurd hdrop (by simp)
    simp only [findBlockEndAux] at h
    split at h
    · -- brace count still positive: recurse
      have := ih (j + 1) _ _ e b hcur.2.symm h
      refine ⟨by omega, this.2.1, this.2.2.1, this.2.2.2.1, this.2.2.2.2⟩
    · -- brace count dropped: the closing-line checks
      split at h
      · rename_i w hclose
        split at h
        · split at h
          · exact absurd h (by simp)
          · rename_i hweq helse
            have hor : (containsBraceElse cur.data || elseOnNext rest) = false := by
              cases hx : (containsBraceElse cur.data || elseOnNext rest)
              · rfl
              · exact absurd hx helse
            have hA : containsBraceElse cur.data = false := by
              cases hx : containsBraceElse cur.data
              · rfl
              · rw [hx] at hor; simp at hor
            have hB : elseOnNext rest = false := by
              cases hx : elseOnNext rest
              · rfl
              · rw [hx] at hor; simp at hor
            obtain ⟨rfl, rfl⟩ : j = e ∧ acc = b := by
              have hp := Option.some.inj h
              exact ⟨congrArg Prod.fst hp, congrArg Prod.snd hp⟩
            refine ⟨Nat.le_refl _, hj, ?_, ?_, ?_⟩
            · rw [hcur.1, hclose, hweq]
            · rw [hcur.1]; exact hA
            · intro hlt
              have hne : lines.drop (j + 1) ≠ [] := by
                intro hnil
                have := List.length_drop (j + 1) lines
                rw [hnil] at this
                simp at this
                omega
              cases hrest : lines.drop (j + 1) with
              | nil => exact absurd hrest hne
              | cons nxt rest' =>
                have hnxt : lines.getD (j + 1) "" = nxt :=
                  (drop_cons_getD "" hrest).1
                rw [hnxt]
                rw [hcur.2] at hrest
                rw [hrest] at hB
                simpa [elseOnNext] using hB
        · exact absurd h (by simp)
      · exact absurd h (by simp)

/-- Corollary of `findBlockEndAux_spec` for the wrapper `findBlockEnd`. -/
theorem findBlockEnd_spec {lines : List String} {i : Nat} {ind : String}
    {r : BlockEnd} (h : findBlockEnd lines i ind = some r) :
    i < r.endLine ∧ r.endLine < lines.length ∧ r.bodyStartLine = i + 1 ∧
    closingIndent (lines.getD r.endLine "") = some ind.data ∧
    containsBraceElse (lines.getD r.endLine "").data = false ∧
    (r.endLine + 1 < lines.length →
      elseNextLine (lines.getD (r.endLine + 1) "") = false) := by
  unfold findBlockEnd at h
  cases haux : findBlockEndAux ind (i + 1) 1 [] (lines.drop (i + 1)) with
  | none => rw [haux] at h; exact absurd h (by simp)
  | some p =>
    rw [haux] at h
    obtain ⟨e, b⟩ := p
    have hs := findBlockEndAux_spec (lines.drop (i + 1)) (i + 1) 1 [] e b rfl haux
    have hr : r = ⟨e, b, i + 1⟩ := (Option.some.inj h).symm
    subst hr
    have h1 := hs.1
    refine ⟨?_, hs.2.1, rfl, hs.2.2.1, hs.2.2.2.1, hs.2.2.2.2⟩
    show i < e
    omega

theorem chainedFrom_mono {a b : Nat} {l : List ErrorBlock}
    (hab : a ≤ b) (h : ChainedFrom b l) : ChainedFrom a l := by
  cases l with
  | nil => trivial
  | cons d ds => exact ⟨Nat.le_trans hab h.1, h.2.1, h.2.2.1, h.2.2.2⟩

theorem scanFromAux_chained (lines frags : List String) :
    ∀ (fuel i : Nat), ChainedFrom i (scanFromAux lines frags fuel i) := by
  intro fuel
  induction fuel with
  | zero => intro i; trivial
  | succ fuel ih =>
    intro i
    rw [scanFromAux]
    split
    · rename_i hi
      split
      · rename_i ind hg
        split
        · rename_i r hf
          have hb := findBlockEnd_spec hf
          have h1 := hb.1
          have h2 := hb.2.2.1
          split
          · refine ⟨Nat.le_refl i, ?_, ?_, ih (r.endLine + 1)⟩
            · show i < r.bodyStartLine
              omega
            · show r.bodyStartLine ≤ r.endLine
              omega
          · exact chainedFrom_mono (by omega) (ih (r.endLine + 1))
        · exact chainedFrom_mono (Nat.le_succ i) (ih (i + 1))
      · exact chainedFrom_mono (Nat.le_succ i) (ih (i + 1))
    · trivial

theorem chainedFrom_pairwise {lo : Nat} {l : List ErrorBlock}
    (h : ChainedFrom lo l) :
    l.Pairwise (fun a b => a.startLine < b.startLine ∧ a.endLine < b.startLine) := by
  induction l generalizing lo with
  | nil => exact List.Pairwise.nil
  | cons d ds ih =>
    refine List.Pairwise.cons ?_ (ih h.2.2.2)
    intro d' hd'
    have hlow : ∀ m (l' : List ErrorBlock), ChainedFrom m l' →
        ∀ x ∈ l', m ≤ x.startLine := by
      intro m l'
      induction l' generalizing m with
      | nil => intro _ x hx; exact absurd hx (by simp)
      | cons y ys ihy =>
        intro hc x hx
        rcases List.mem_cons.mp hx with rfl | hx'
        · exact hc.1
        · have h1 := hc.1
          have h2 := hc.2.1
          have h3 := hc.2.2.1
          have h4 := ihy (y.endLine + 1) hc.2.2.2 x hx'
          omega
    have := hlow (d.endLine + 1) ds h.2.2.2 d' hd'
    constructor
    · have h1 := h.2.1
      have h2 := h.2.2.1
      omega
    · omega

theorem chainedFrom_mem {lo : Nat} {l : List ErrorBlock}
    (h : ChainedFrom lo l) :
    ∀ d ∈ l, lo ≤ d.startLine ∧ d.startLine < d.bodyStartLine ∧
      d.bodyStartLine ≤ d.endLine := by
  induction l generalizing lo with
  | nil => intro d hd; exact absurd hd (by simp)
  | cons x xs ih =>
    intro d hd
    rcases List.mem_cons.mp hd with rfl | hd'
    · exact ⟨h.1, h.2.1, h.2.2.1⟩
    · have h1 := h.1
      have h2 := h.2.1
      have h3 := h.2.2.1
      have h4 := ih h.2.2.2 d hd'
      exact ⟨by omega, h4.2.1, h4.2.2⟩

/-- Characterization of the blocks a scan emits: each comes from a guard
header recognized at its `startLine`, a successfully found block end, and
a body that classified as a simple error return; its display fields are
computed from that body. -/
theorem mem_scanFromAux {lines frags : List String} :
    ∀ (fuel i : Nat) (d : ErrorBlock), d ∈ scanFromAux lines frags fuel i →
      i ≤ d.startLine ∧
      guardHeader frags (lines.getD d.startLine "") = some d.indentation ∧
      ∃ body,
        findBlockEnd lines d.startLine d.indentation =
          some ⟨d.endLine, body, d.bodyStartLine⟩ ∧
        isSimpleErrorReturn body = true ∧
        d.bodyStatement = extractBodyStatement body ∧
        d.collapsedText =
          generateCollapsedText (lines.getD d.startLine "") d.bodyStatement ∧
        d.fullRange =
          ((d.startLine, 0), (d.endLine, (lines.getD d.endLine "").length)) := by
  intro fuel
  induction fuel with
  | zero => intro i d hd; exact absurd hd (by simp [scanFromAux])
  | succ fuel ih =>
    intro i d hd
    rw [scanFromAux] at hd
    split at hd
    · rename_i hi
      split at hd
      · rename_i ind hg
        split at hd
        · rename_i r hf
          split at hd
          · rename_i hsimple
            rcases List.mem_cons.mp hd with rfl | hd'
            · refine ⟨Nat.le_refl _, hg, r.bodyLines, ?_, hsimple, rfl, rfl, rfl⟩
              rw [hf]
            · have h4 := ih (r.endLine + 1) d hd'
              have hb := findBlockEnd_spec hf
              have h1 := hb.1
              have h2 := h4.1
              exact ⟨by omega, h4.2.1, h4.2.2⟩
          · have h4 := ih (r.endLine + 1) d hd
            have hb := findBlockEnd_spec hf
            have h1 := hb.1
            have h2 := h4.1
            exact ⟨by omega, h4.2.1, h4.2.2⟩
        · have h4 := ih (i + 1) d hd
          exact ⟨by omega, h4.2.1, h4.2.2⟩
      · have h4 := ih (i + 1) d hd
        exact ⟨by omega, h4.2.1, h4.2.2⟩
    · exact absurd hd (by simp)

/-- A scan over lines none of which is recognized as a guard header
produces no blocks. -/
theorem scanFromAux_eq_nil {lines frags : List String}
    (h : ∀ j, j < lines.length → guardHeader frags (lines.getD j "") = none) :
    ∀ (fuel i : Nat), scanFromAux lines frags fuel i = [] := by
  intro fuel
  induction fuel with
  | zero => intro i; rfl
  | succ fuel ih =>
    intro i
    rw [scanFromAux]
    split
    · rename_i hi
      rw [h i hi]
      exact ih (i + 1)
    · rfl

theorem noTwoWs_dropWhile {cs : List Char} (h : NoTwoWs cs) :
    NoTwoWs (cs.dropWhile isJsWs) := by
  induction cs with
  | nil => exact h
  | cons c cs ih =>
    rw [List.dropWhile_cons]
    split
    · exact ih (List.Chain'.tail h)
    · exact h

theorem headNotWs_dropWhile (cs : List Char) :
    headNotWs (cs.dropWhile isJsWs) = true := by
  induction cs with
  | nil => rfl
  | cons c cs ih =>
    rw [List.dropWhile_cons]
    split
    · exact ih
    · rename_i hc
      simp only [headNotWs]
      exact by simpa using hc

theorem trimEnd_shape (c : Char) (cs : List Char) :
    trimEnd (c :: cs) = [] ∨ ∃ t, trimEnd (c :: cs) = c :: t := by
  cases h : trimEnd cs with
  | nil =>
    cases hc : isJsWs c with
    | true => exact Or.inl (by simp [trimEnd, h, hc])
    | false => exact Or.inr ⟨[], by simp [trimEnd, h, hc]⟩
  | cons x xs => exact Or.inr ⟨x :: xs, by simp [trimEnd, h]⟩

theorem trimEnd_lastNotWs : ∀ cs : List Char, lastNotWs (trimEnd cs) = true := by
  intro cs
  induction cs with
  | nil => rfl
  | cons c cs ih =>
    cases h : trimEnd cs with
    | nil =>
      cases hc : isJsWs c with
      | true => simp [trimEnd, h, hc, lastNotWs]
      | false => simp [trimEnd, h, hc, lastNotWs]
    | cons x xs =>
      have heq : trimEnd (c :: cs) = c :: x :: xs := by simp [trimEnd, h]
      rw [heq]
      show lastNotWs (x :: xs) = true
      rw [← h]
      exact ih

theorem headNotWs_trimEnd {cs : List Char} (h : headNotWs cs = true) :
    headNotWs (trimEnd cs) = true := by
  cases cs with
  | nil => rfl
  | cons c cs =>
    rcases trimEnd_shape c cs with h0 | ⟨t, ht⟩
    · rw [h0]; rfl
    · rw [ht]; exact h

theorem noTwoWs_trimEnd {cs : List Char} (h : NoTwoWs cs) :
    NoTwoWs (trimEnd cs) := by
  induction cs with
  | nil => exact h
  | cons c cs ih =>
    have htail : NoTwoWs cs := List.Chain'.tail h
    cases hq : trimEnd cs with
    | nil =>
      cases hc : isJsWs c with
      | true =>
        have heq : trimEnd (c :: cs) = [] := by simp [trimEnd, hq, hc]
        rw [heq]
        exact List.chain'_nil
      | false =>
        have heq : trimEnd (c :: cs) = [c] := by simp [trimEnd, hq, hc]
        rw [heq]
        exact List.chain'_singleton c
    | cons x xs =>
      have heq : trimEnd (c :: cs) = c :: x :: xs := by simp [trimEnd, hq]
      rw [heq]
      have ihr : NoTwoWs (x :: xs) := hq ▸ ih htail
      have hcs : ∃ cs', cs = x :: cs' := by
        cases cs with
        | nil => exact absurd hq (by simp [trimEnd])
        | cons y ys =>
          rcases trimEnd_shape y ys with h0 | ⟨t, ht⟩
          · rw [h0] at hq; exact absurd hq (by simp)
          · rw [ht] at hq
            obtain ⟨rfl, -⟩ := List.cons.inj hq
            exact ⟨ys, rfl⟩
      obtain ⟨cs', rfl⟩ := hcs
      exact List.chain'_cons.mpr ⟨(List.chain'_cons.mp h).1, ihr⟩

theorem collapseWsAux_head_true :
    ∀ (cs : List Char) (x : Char) (xs : List Char),
      collapseWsAux true cs = x :: xs → isJsWs x = false := by
  intro cs
  induction cs with
  | nil => intro x xs h; exact absurd h (by simp [collapseWsAux])
  | cons c cs ih =>
    intro x xs h
    simp only [collapseWsAux] at h
    split at h
    · exact ih x xs h
    · rename_i hc
      obtain ⟨rfl, -⟩ := List.cons.inj h
      simpa using hc

theorem noTwoWs_collapseWsAux :
    ∀ (cs : List Char) (prevWs : Bool), NoTwoWs (collapseWsAux prevWs cs) := by
  intro cs
  induction cs with
  | nil => intro prevWs; exact List.chain'_nil
  | cons c cs ih =>
    intro prevWs
    simp only [collapseWsAux]
    split
    · rename_i hc
      split
      · exact ih true
      · cases hx : collapseWsAux true cs with
        | nil => exact List.chain'_singleton _
        | cons x xs =>
          refine List.chain'_cons.mpr ⟨?_, hx ▸ ih true⟩
          intro hand
          have hx0 := collapseWsAux_head_true cs x xs hx
          rw [hx0] at hand
          exact absurd hand.2 (by simp)
    · rename_i hc
      cases hx : collapseWsAux false cs with
      | nil => exact List.chain'_singleton _
      | cons x xs =>
        refine List.chain'_cons.mpr ⟨?_, hx ▸ ih false⟩
        intro hand
        exact absurd hand.1 (by simpa using hc)

theorem noTwoWs_trimChars_collapse (cs : List Char) :
    NoTwoWs (trimChars (collapseWsChars cs)) ∧
    headNotWs (trimChars (collapseWsChars cs)) = true ∧
    lastNotWs (trimChars (collapseWsChars cs)) = true := by
  unfold trimChars collapseWsChars
  refine ⟨?_, ?_, ?_⟩
  · exact noTwoWs_trimEnd (noTwoWs_dropWhile (noTwoWs_collapseWsAux cs false))
  · exact headNotWs_trimEnd (headNotWs_dropWhile _)
  · exact trimEnd_lastNotWs _

/-- C1: the claim states that with the default fragments the words
`someErr` and `errWrapped` are both recognized in a guard header.  The
code's own comment (`config.ts` line 455: "matches err, error, someErr,
someError, etc.") says the same, but the header regex is built without the
`i` flag, so the fragment match is case-sensitive: `someErr` contains
neither `err` nor `error` as a (case-sensitive) substring and is NOT
recognized, while `errWrapped` is.  This theorem evaluates the embedded
header predicate at the failing inputs, documenting the code bug. -/
theorem c1_header_case_sensitivity :
    guardHeader defaultFrags "if someErr != nil \x7b" = none ∧
    guardHeader defaultFrags "if someError != nil \x7b" = none ∧
    guardHeader defaultFrags "if errWrapped != nil \x7b" = some "" ∧
    guardHeader defaultFrags "  if err != nil \x7b" = some "  " ∧
    performDetection ["if someErr != nil \x7b", "    return err", "\x7d"] defaultFrags
      = [] := by
  decide

/-- C2: a body qualifies as a simple error-handling body iff its
qualifying (non-empty, non-`//`) lines number between 1 and 3, every such
line matches one of the allowed shapes, and at most one is a `return`
statement; and a body that fails classification yields no descriptor for
its guard header. -/
theorem c2_body_classifier :
    (∀ bodyLines : List String,
      isSimpleErrorReturn bodyLines = true ↔ SimpleBodySpec bodyLines) ∧
    (∀ (lines frags : List String) (i : Nat) (ind : String) (r : BlockEnd),
      guardHeader frags (lines.getD i "") = some ind →
      findBlockEnd lines i ind = some r →
      isSimpleErrorReturn r.bodyLines = false →
      ∀ d ∈ performDetection lines frags, d.startLine ≠ i) := by
  constructor
  · intro bodyLines
    constructor
    · intro h
      simp only [isSimpleErrorReturn] at h
      split at h
      · exact absurd h (by simp)
      · split at h
        · exact absurd h (by simp)
        · split at h
          · rename_i h0 h3 hall
            refine ⟨by omega, by omega, ?_, by simpa using h⟩
            intro l hl
            exact List.all_eq_true.mp hall l hl
          · exact absurd h (by simp)
    · intro hspec
      obtain ⟨h1, h3, hall, hret⟩ := hspec
      have hq0 : ¬((qualifyingLines bodyLines).length = 0) := by omega
      have hq3 : ¬(3 < (qualifyingLines bodyLines).length) := by omega
      have hallb : ((qualifyingLines bodyLines).all
          (fun l => matchesValidPattern (trimChars l.data))) = true :=
        List.all_eq_true.mpr hall
      simp only [isSimpleErrorReturn, if_neg hq0, if_neg hq3, if_pos hallb]
      simpa using hret
  · intro lines frags i ind r hg hf hns d hd hstart
    obtain ⟨-, hguard, body, hfind, hsimple, -, -, -⟩ :=
      mem_scanFromAux lines.length 0 d hd
    rw [hstart] at hguard hfind
    rw [hg] at hguard
    have hind := Option.some.inj hguard
    rw [← hind] at hfind
    rw [hf] at hfind
    have hbe := Option.some.inj hfind
    have hbody : r.bodyLines = body := by rw [hbe]
    rw [hbody, hsimple] at hns
    exact absurd hns (by simp)

/-- Witness for C2: the rejected-body hypotheses are satisfiable (the
specification's `cleanup()` example) and the accepted block of the same
input does not start at the rejected header's line. -/
theorem c2_body_classifier_witness :
    guardHeader defaultFrags (exLines3.getD 0 "") = some "" ∧
    findBlockEnd exLines3 0 "" =
      some ⟨3, ["    cleanup()", "    return err"], 1⟩ ∧
    isSimpleErrorReturn ["    cleanup()", "    return err"] = false ∧
    exBlock3 ∈ performDetection exLines3 defaultFrags ∧
    exBlock3.startLine ≠ 0 := by
  have hg : guardHeader defaultFrags (exLines3.getD 0 "") = some "" := by decide
  have hf : findBlockEnd exLines3 0 "" =
      some ⟨3, ["    cleanup()", "    return err"], 1⟩ := by decide
  have hns : isSimpleErrorReturn ["    cleanup()", "    return err"] = false := by
    decide
  have hm : exBlock3 ∈ performDetection exLines3 defaultFrags := by decide
  exact ⟨hg, hf, hns, hm,
    c2_body_classifier.2 exLines3 defaultFrags 0 "" _ hg hf hns exBlock3 hm⟩

/-- C3: every emitted descriptor satisfies
`startLine < bodyStartLine ≤ endLine`, and the emitted descriptors are in
strictly ascending `startLine` order with pairwise non-overlapping
`[startLine, endLine]` ranges (each block ends strictly before the next
begins). -/
theorem c3_scan_invariants (lines frags : List String) :
    ((performDetection lines frags).Pairwise
      (fun a b => a.startLine < b.startLine ∧ a.endLine < b.startLine)) ∧
    ∀ d ∈ performDetection lines frags,
      d.startLine < d.bodyStartLine ∧ d.bodyStartLine ≤ d.endLine := by
  have hc := scanFromAux_chained lines frags lines.length 0
  exact ⟨chainedFrom_pairwise hc, fun d hd => (chainedFrom_mem hc d hd).2⟩

/-- Witness for C3: the invariant instantiated at a concrete emitted
descriptor. -/
theorem c3_scan_invariants_witness :
    exBlock1 ∈ performDetection exLines1 defaultFrags ∧
    exBlock1.startLine < exBlock1.bodyStartLine ∧
    exBlock1.bodyStartLine ≤ exBlock1.endLine := by
  have hm : exBlock1 ∈ performDetection exLines1 defaultFrags := by decide
  exact ⟨hm, (c3_scan_invariants exLines1 defaultFrags).2 exBlock1 hm⟩

/-- C4: a block whose closing line carries `} else {`, or whose closing
line is followed by a bare `else {`, is never emitted: every emitted
descriptor's closing line fails both `else` tests, and the
specification's literal `else` example yields zero descriptors. -/
theorem c4_else_rejection :
    (∀ (lines frags : List String), ∀ d ∈ performDetection lines frags,
      containsBraceElse (lines.getD d.endLine "").data = false ∧
      (d.endLine + 1 < lines.length →
        elseNextLine (lines.getD (d.endLine + 1) "") = false)) ∧
    performDetection
      ["if err != nil \x7b", "    return err", "\x7d else \x7b", "    doSomething()", "\x7d"]
      defaultFrags = [] := by
  constructor
  · intro lines frags d hd
    obtain ⟨-, -, body, hf, -, -, -, -⟩ := mem_scanFromAux lines.length 0 d hd
    have hs := findBlockEnd_spec hf
    exact ⟨hs.2.2.2.2.1, hs.2.2.2.2.2⟩
  · decide

/-- Witness for C4: the no-`else` conclusion instantiated at a concrete
emitted descriptor. -/
theorem c4_else_rejection_witness :
    exBlock1 ∈ performDetection exLines1 defaultFrags ∧
    containsBraceElse (exLines1.getD exBlock1.endLine "").data = false := by
  have hm : exBlock1 ∈ performDetection exLines1 defaultFrags := by decide
  exact ⟨hm, (c4_else_rejection.1 exLines1 defaultFrags exBlock1 hm).1⟩

/-- C5: the scanner is a total function of its input (the embedding is
structurally recursive and returns a plain list, with no failure cases:
this models "terminates and never throws" on every input, including
unbalanced braces and non-Latin text).  Moreover every emitted descriptor
stays within the input (the scan is bounded by input length), a header
whose block end is not found contributes no descriptor, and concrete
malformed inputs — a header with no closer, an unbalanced nested brace,
Cyrillic text — all yield zero descriptors. -/
theorem c5_scan_total_and_bounded :
    (∀ (lines frags : List String), ∀ d ∈ performDetection lines frags,
      d.endLine < lines.length) ∧
    (∀ (lines frags : List String) (i : Nat) (ind : String),
      guardHeader frags (lines.getD i "") = some ind →
      findBlockEnd lines i ind = none →
      ∀ d ∈ performDetection lines frags, d.startLine ≠ i) ∧
    performDetection ["if err != nil \x7b", "    return err"] defaultFrags = [] ∧
    performDetection
      ["if err != nil \x7b", "    x := map[string]int\x7b", "    return err"]
      defaultFrags = [] ∧
    performDetection ["если ошибка != nil \x7b", "    вернуть ошибка"]
      defaultFrags = [] := by
  refine ⟨?_, ?_, by decide, by decide, by decide⟩
  · intro lines frags d hd
    obtain ⟨-, -, body, hf, -, -, -, -⟩ := mem_scanFromAux lines.length 0 d hd
    exact (findBlockEnd_spec hf).2.1
  · intro lines frags i ind hg hf d hd hstart
    obtain ⟨-, hguard, body, hfind, -, -, -, -⟩ :=
      mem_scanFromAux lines.length 0 d hd
    rw [hstart] at hguard hfind
    rw [hg] at hguard
    have hind := Option.some.inj hguard
    rw [← hind] at hfind
    rw [hf] at hfind
    exact absurd hfind (by simp)

/-- Witness for C5: the bound instantiated at a concrete descriptor, and
the no-closer rejection instantiated at `exLines4` (whose second header
has no closing line): the emitted block does not start at that header. -/
theorem c5_scan_total_and_bounded_witness :
    exBlock4 ∈ performDetection exLines4 defaultFrags ∧
    exBlock4.endLine < exLines4.length ∧
    guardHeader defaultFrags (exLines4.getD 3 "") = some "" ∧
    findBlockEnd exLines4 3 "" = none ∧
    exBlock4.startLine ≠ 3 := by
  have hm : exBlock4 ∈ performDetection exLines4 defaultFrags := by decide
  have hg : guardHeader defaultFrags (exLines4.getD 3 "") = some "" := by decide
  have hf : findBlockEnd exLines4 3 "" = none := by decide
  exact ⟨hm, c5_scan_total_and_bounded.1 exLines4 defaultFrags exBlock4 hm, hg, hf,
    c5_scan_total_and_bounded.2.1 exLines4 defaultFrags 3 "" hg hf exBlock4 hm⟩

/-- C6: when the cache holds an entry for the document, a call with the
entry's version whose age is strictly under the 5000 ms TTL returns the
cached blocks without invoking the Scanner (instrumentation bit `false`)
and leaves the cache unchanged; a call with a different version, or one
whose age has reached the TTL, invokes the Scanner afresh (bit `true`)
and overwrites the stored entry with the new version, blocks and
timestamp. -/
theorem c6_cache_correctness :
    ∀ (cache : List (String × DocumentCache)) (uri : String) (version : Nat)
      (lines frags : List String) (now : Nat) (c : DocumentCache),
      cacheGet cache uri = some c →
      ((c.version = version ∧ now - c.timestamp < CACHE_TTL →
        detectErrorBlocks cache uri version lines frags now =
          (c.blocks, cache, false)) ∧
       (c.version ≠ version ∨ CACHE_TTL ≤ now - c.timestamp →
        detectErrorBlocks cache uri version lines frags now =
          (performDetection lines frags,
           cacheSet cache uri
             ⟨version, performDetection lines frags, now⟩, true))) := by
  intro cache uri version lines frags now c hget
  have hred : detectErrorBlocks cache uri version lines frags now =
      if c.version = version ∧ now - c.timestamp < CACHE_TTL then
        (c.blocks, cache, false)
      else
        (performDetection lines frags,
         cacheSet cache uri
           ⟨version, performDetection lines frags, now⟩, true) := by
    unfold detectErrorBlocks
    rw [hget]
  constructor
  · intro hvalid
    rw [hred, if_pos hvalid]
  · intro hinv
    rw [hred, if_neg ?_]
    intro hvalid
    rcases hinv with h | h
    · exact h hvalid.1
    · have h2 := hvalid.2
      omega

/-- Witness for C6: on a concrete one-entry cache, a same-version call at
age 3900 ms is served from the cache without scanning; a call with a
bumped version, and a same-version call at age exactly 5000 ms, both
rescan and overwrite the entry. -/
theorem c6_cache_correctness_witness :
    cacheGet exCache "file:///a.go" =
      some { version := 1, blocks := [], timestamp := 100 } ∧
    detectErrorBlocks exCache "file:///a.go" 1 exLines1 defaultFrags 4000 =
      ([], exCache, false) ∧
    detectErrorBlocks exCache "file:///a.go" 2 exLines1 defaultFrags 4000 =
      (performDetection exLines1 defaultFrags,
       cacheSet exCache "file:///a.go"
         ⟨2, performDetection exLines1 defaultFrags, 4000⟩, true) ∧
    detectErrorBlocks exCache "file:///a.go" 1 exLines1 defaultFrags 5100 =
      (performDetection exLines1 defaultFrags,
       cacheSet exCache "file:///a.go"
         ⟨1, performDetection exLines1 defaultFrags, 5100⟩, true) := by
  have hget : cacheGet exCache "file:///a.go" =
      some { version := 1, blocks := [], timestamp := 100 } := by decide
  refine ⟨hget, ?_, ?_, ?_⟩
  · exact (c6_cache_correctness exCache "file:///a.go" 1 exLines1 defaultFrags
      4000 _ hget).1 (by decide)
  · exact (c6_cache_correctness exCache "file:///a.go" 2 exLines1 defaultFrags
      4000 _ hget).2 (by decide)
  · exact (c6_cache_correctness exCache "file:///a.go" 1 exLines1 defaultFrags
      5100 _ hget).2 (by decide)

/-- C7: every emitted descriptor's `collapsedText` is built from the
header's condition and the descriptor's own (untruncated) `bodyStatement`,
truncated to its first 50 characters plus the `...` marker exactly when
the statement exceeds 50 characters, and unmodified otherwise. -/
theorem c7_collapsed_truncation :
    ∀ (lines frags : List String), ∀ d ∈ performDetection lines frags,
      d.collapsedText =
        "if " ++ ((extractCondition (lines.getD d.startLine "")).getD "err != nil")
        ++ " \x7b " ++
        (if 50 < d.bodyStatement.length then
          String.mk (d.bodyStatement.data.take 50) ++ "..."
        else d.bodyStatement) ++ " \x7d" := by
  intro lines frags d hd
  obtain ⟨-, -, body, -, -, -, hct, -⟩ := mem_scanFromAux lines.length 0 d hd
  rw [hct]
  rfl

/-- Witness for C7: the truncation law instantiated at a concrete
descriptor whose body statement is 66 characters long. -/
theorem c7_collapsed_truncation_witness :
    exBlock7 ∈ performDetection exLines7 defaultFrags ∧
    exBlock7.collapsedText =
      "if " ++ ((extractCondition (exLines7.getD exBlock7.startLine "")).getD
        "err != nil") ++ " \x7b " ++
      (if 50 < exBlock7.bodyStatement.length then
        String.mk (exBlock7.bodyStatement.data.take 50) ++ "..."
      else exBlock7.bodyStatement) ++ " \x7d" := by
  have hm : exBlock7 ∈ performDetection exLines7 defaultFrags := by decide
  exact ⟨hm, c7_collapsed_truncation exLines7 defaultFrags exBlock7 hm⟩

/-- Counterexample to C8 as stated: the descriptor emitted for a guard
whose single body line contains an internal double space carries that
double space in `bodyStatement` — the single-line path only trims and
does not collapse internal whitespace runs, so `bodyStatement` differs
from the whitespace-collapsed rendering the claim prescribes. -/
theorem c8_counterexample :
    (performDetection ["if err != nil \x7b", "    return  err", "\x7d"] defaultFrags).map
      (fun d => d.bodyStatement) = ["return  err"] ∧
    String.mk (trimChars (collapseWsChars ("    return  err" : String).data)) =
      "return err" ∧
    ("return  err" : String) ≠ "return err" := by
  decide

/-- C8 (amended): `bodyStatement` is the trimmed single-line rendering of
the body, but internal whitespace runs are collapsed only for multi-line
bodies: a body with exactly one qualifying line is merely trimmed
(internal whitespace preserved), while a body with two or more qualifying
lines produces a statement with no leading or trailing whitespace and no
two adjacent whitespace characters. -/
theorem c8_body_statement_normalization :
    (∀ (bodyLines : List String) (l : String),
      qualifyingLines bodyLines = [l] →
      extractBodyStatement bodyLines = String.mk (trimChars l.data)) ∧
    (∀ bodyLines : List String, 2 ≤ (qualifyingLines bodyLines).length →
      NoTwoWs (extractBodyStatement bodyLines).data ∧
      headNotWs (extractBodyStatement bodyLines).data = true ∧
      lastNotWs (extractBodyStatement bodyLines).data = true) := by
  constructor
  · intro bodyLines l hq
    unfold extractBodyStatement
    rw [hq]
  · intro bodyLines hlen
    cases hq : qualifyingLines bodyLines with
    | nil => rw [hq] at hlen; simp at hlen
    | cons a t1 =>
      cases t1 with
      | nil => rw [hq] at hlen; simp at hlen
      | cons b t =>
        unfold extractBodyStatement
        rw [hq]
        exact noTwoWs_trimChars_collapse _

/-- Witness for C8 (amended): both branches at concrete bodies — the
single-line body keeps its internal double space after trimming, and a
two-line body is fully normalized. -/
theorem c8_body_statement_normalization_witness :
    qualifyingLines ["    return  err"] = ["    return  err"] ∧
    extractBodyStatement ["    return  err"] =
      String.mk (trimChars ("    return  err" : String).data) ∧
    2 ≤ (qualifyingLines ["  log.Print(1)", "  return\terr"]).length ∧
    headNotWs (extractBodyStatement ["  log.Print(1)", "  return\terr"]).data
      = true ∧
    lastNotWs (extractBodyStatement ["  log.Print(1)", "  return\terr"]).data
      = true ∧
    NoTwoWs (extractBodyStatement ["  log.Print(1)", "  return\terr"]).data := by
  have hq : qualifyingLines ["    return  err"] = ["    return  err"] := by decide
  have hlen : 2 ≤ (qualifyingLines ["  log.Print(1)", "  return\terr"]).length := by
    decide
  have hmulti := c8_body_statement_normalization.2
    ["  log.Print(1)", "  return\terr"] hlen
  exact ⟨hq, c8_body_statement_normalization.1 ["    return  err"] _ hq,
    hlen, hmulti.2.1, hmulti.2.2, hmulti.1⟩

/-- Counterexample to C9 as stated: with an empty fragment set the
generated group is the empty alternation `()`, which matches the empty
string, so the header predicate still recognizes `if != nil {` and the
scan of such an input emits a descriptor instead of none. -/
theorem c9_counterexample :
    performDetection ["if != nil \x7b", "    return err", "\x7d"] [] =
      [{ startLine := 0, endLine := 2, bodyStartLine := 1, indentation := "",
         collapsedText := "if != nil \x7b return err \x7d",
         bodyStatement := "return err",
         fullRange := ((0, 0), (2, 1)) }] := by
  decide

/-- C9 (amended): with an empty fragment set the header predicate does
not match nothing — it matches exactly the guard-header shapes whose
variable word is empty (`if != nil {`).  On any input containing no such
line the scan degrades to zero descriptors and does not fail. -/
theorem c9_empty_fragments :
    (∀ (line : String) (ind : String),
      guardHeader [] line = some ind ↔ parseGuardShape line = some (ind, [])) ∧
    (∀ lines : List String,
      (∀ j, j < lines.length → guardHeader [] (lines.getD j "") = none) →
      performDetection lines [] = []) := by
  constructor
  · intro line ind
    unfold guardHeader
    cases hp : parseGuardShape line with
    | none => simp
    | some p =>
      obtain ⟨ind', w⟩ := p
      cases w with
      | nil =>
        show (if groupAccepts [] [] then some ind' else none) = some ind ↔
          some (ind', ([] : List Char)) = some (ind, [])
        simp [groupAccepts]
      | cons c cs =>
        show (if groupAccepts [] (c :: cs) then some ind' else none) = some ind ↔
          some (ind', c :: cs) = some (ind, [])
        simp [groupAccepts]
  · intro lines h
    exact scanFromAux_eq_nil h lines.length 0

/-- Witness for C9 (amended): an input with no empty-variable header
scans to zero descriptors under the empty fragment set. -/
theorem c9_empty_fragments_witness :
    performDetection ["foo()", "if err != nil \x7b", "    return err", "\x7d"] []
      = [] := by
  exact c9_empty_fragments.2 ["foo()", "if err != nil \x7b", "    return err", "\x7d"]
    (by decide)

/-- C10: a body line is filtered out as comment-only exactly when its
trimmed form is empty or starts with `//`; a line whose trimmed form
starts with `/*` is kept as a statement line, matches none of the allowed
shapes, and therefore disqualifies the whole body; a concrete guard block
containing a `/* ... */` line yields zero descriptors. -/
theorem c10_block_comment_disqualifies :
    (∀ line : String, qualifies line = false ↔
      trimChars line.data = [] ∨
      ['/', '/'].isPrefixOf (trimChars line.data) = true) ∧
    (∀ line : String, ['/', '*'].isPrefixOf (trimChars line.data) = true →
      qualifies line = true ∧
      matchesValidPattern (trimChars line.data) = false) ∧
    (∀ (bodyLines : List String) (line : String), line ∈ bodyLines →
      ['/', '*'].isPrefixOf (trimChars line.data) = true →
      isSimpleErrorReturn bodyLines = false) ∧
    performDetection ["if err != nil \x7b", "    /* note */", "    return err", "\x7d"]
      defaultFrags = [] := by
  have hkey : ∀ line : String, ['/', '*'].isPrefixOf (trimChars line.data) = true →
      qualifies line = true ∧
      matchesValidPattern (trimChars line.data) = false := by
    intro line hpre
    have hpre' : ['/', '*'] <+: trimChars line.data :=
      List.isPrefixOf_iff_prefix.mp hpre
    obtain ⟨rest, hrest⟩ := hpre'
    constructor
    · show (!(trimChars line.data).isEmpty &&
        !(['/', '/'].isPrefixOf (trimChars line.data))) = true
      rw [← hrest]
      rfl
    · rw [← hrest]
      rfl
  refine ⟨?_, hkey, ?_, by decide⟩
  · intro line
    constructor
    · intro h
      by_cases he : trimChars line.data = []
      · exact Or.inl he
      · right
        cases hp : ['/', '/'].isPrefixOf (trimChars line.data) with
        | true => rfl
        | false =>
          exfalso
          have hq : qualifies line = true := by
            show (!(trimChars line.data).isEmpty &&
              !(['/', '/'].isPrefixOf (trimChars line.data))) = true
            rw [hp]
            cases ht : trimChars line.data with
            | nil => exact absurd ht he
            | cons c cs => rfl
          rw [hq] at h
          exact absurd h (by simp)
    · intro h
      show (!(trimChars line.data).isEmpty &&
        !(['/', '/'].isPrefixOf (trimChars line.data))) = false
      rcases h with he | hp
      · rw [he]
        rfl
      · rw [hp]
        simp
  · intro bodyLines line hmem hpre
    have hk := hkey line hpre
    have hql : line ∈ qualifyingLines bodyLines :=
      List.mem_filter.mpr ⟨hmem, hk.1⟩
    simp only [isSimpleErrorReturn]
    split
    · rfl
    · split
      · rfl
      · split
        · rename_i hall
          have hv := List.all_eq_true.mp hall line hql
          rw [hk.2] at hv
          exact absurd hv (by simp)
        · rfl

/-- Witness for C10: the key facts instantiated at the concrete line
`    /* note */` and the concrete two-line body containing it. -/
theorem c10_block_comment_disqualifies_witness :
    ['/', '*'].isPrefixOf (trimChars ("    /* note */" : String).data) = true ∧
    qualifies "    /* note */" = true ∧
    matchesValidPattern (trimChars ("    /* note */" : String).data) = false ∧
    ("    /* note */" : String) ∈ ["    /* note */", "    return err"] ∧
    isSimpleErrorReturn ["    /* note */", "    return err"] = false := by
  have hpre : ['/', '*'].isPrefixOf (trimChars ("    /* note */" : String).data)
      = true := by decide
  have hmem : ("    /* note */" : String) ∈ ["    /* note */", "    return err"] := by
    decide
  have hk := c10_block_comment_disqualifies.2.1 "    /* note */" hpre
  exact ⟨hpre, hk.1, hk.2, hmem,
    c10_block_comment_disqualifies.2.2.1 ["    /* note */", "    return err"]
      "    /* note */" hmem hpre⟩

end GoErrorCollapse
